import Mathlib

/-!
# QuickNotes

A verification development for the `QuickNotes` component
(`src/Components/QuickNotes/QuickNotes.jsx`): the note store (add, delete,
open, edit, save, close), the load and persist effects, the date formatter
and the category colour lookup.

Modelling conventions.

* A string is a Lean `String` (a sequence of Unicode scalar values).
* A number that the component handles (an id, a time value in milliseconds,
  a calendar field) is an integer or a natural number.
* A `Date` held by a note created through the user interface is its time
  value; `new Date()` and `Date.now()` are readings of the clock, passed to
  the handlers as arguments.
* The answer of `window.confirm` is passed to `deleteNote` as an argument.
* React state is passed explicitly: a handler maps the state it closes over
  to the state after its setters have run.
-/

namespace QuickNotes

/-! ## Strings -/

/-- White space and line terminators of ECMAScript, the characters removed by
`String.prototype.trim`. -/
def isWhiteSpace (c : Char) : Bool :=
  c.toNat == 0x09 || c.toNat == 0x0A || c.toNat == 0x0B || c.toNat == 0x0C ||
  c.toNat == 0x0D || c.toNat == 0x20 || c.toNat == 0xA0 || c.toNat == 0x1680 ||
  (0x2000 ≤ c.toNat && c.toNat ≤ 0x200A) || c.toNat == 0x2028 ||
  c.toNat == 0x2029 || c.toNat == 0x202F || c.toNat == 0x205F ||
  c.toNat == 0x3000 || c.toNat == 0xFEFF

/-- The method `String.prototype.trim`: white space is removed from both ends. -/
def trim (s : String) : String :=
  String.mk ((s.data.dropWhile isWhiteSpace).reverse.dropWhile isWhiteSpace).reverse

/-! ## The note store -/

/-- A note as `addNote` builds it (lines 90-97). `title` and `updatedAt` are
`none` for `null`. -/
structure Note where
  id : Int
  title : Option String
  content : String
  category : String
  createdAt : Int
  updatedAt : Option Int
deriving DecidableEq, Repr

/-- The state hooks of the component (lines 5-10): the collection, the three
draft fields of the creation form and the edit buffer. -/
structure State where
  notes : List Note
  noteTitle : String
  noteContent : String
  noteCategory : String
  selectedNote : Option Note
deriving DecidableEq, Repr

/-- The initial values of the hooks. -/
def initialState : State :=
  { notes := [], noteTitle := "", noteContent := "", noteCategory := "Personal",
    selectedNote := none }

/-- The handler `addNote` (lines 87-103). `now` is the reading `Date.now()`,
`today` the time value of `new Date()`. -/
def addNote (s : State) (now today : Int) : State :=
  if trim s.noteContent = "" then s
  else
    let newNote : Note :=
      { id := now
        title := if trim s.noteTitle = "" then none else some (trim s.noteTitle)
        content := s.noteContent
        category := s.noteCategory
        createdAt := today
        updatedAt := none }
    { s with
      notes := s.notes ++ [newNote]
      noteContent := ""
      noteTitle := ""
      noteCategory := "Personal" }

/-- The handler `deleteNote` (lines 105-113). `confirmDelete` is the answer of
`window.confirm`. -/
def deleteNote (s : State) (confirmDelete : Bool) (noteId : Int) : State :=
  if confirmDelete then
    { s with
      notes := s.notes.filter (fun note => note.id != noteId)
      selectedNote :=
        match s.selectedNote with
        | some sel => if sel.id = noteId then none else some sel
        | none => none }
  else s

/-- The handler `openNote` (lines 115-117): the edit buffer becomes a copy of
the note. -/
def openNote (s : State) (note : Note) : State :=
  { s with selectedNote := some note }

/-- The handler `closeModal` (lines 119-121). -/
def closeModal (s : State) : State :=
  { s with selectedNote := none }

/-- The fields that the modal edits (lines 246, 266, 271). -/
inductive Field where
  | title
  | content
  | category
deriving DecidableEq, Repr

/-- The handler `handleModalChange` (lines 123-128): one field of the edit
buffer is overwritten with the value of the control. The controls of the
modal are rendered only while a note is open (line 240), so with no open
note the handler cannot fire and the state is left as it is. -/
def handleModalChange (s : State) (field : Field) (value : String) : State :=
  match s.selectedNote with
  | none => s
  | some prev =>
    match field with
    | Field.title => { s with selectedNote := some { prev with title := some value } }
    | Field.content => { s with selectedNote := some { prev with content := value } }
    | Field.category => { s with selectedNote := some { prev with category := value } }

/-- The handler `saveNoteChanges` (lines 130-141). `today` is the time value of
`new Date()`. With no open note the read of `selectedNote.content` raises
before any setter runs, so the state is left as it is. -/
def saveNoteChanges (s : State) (today : Int) : State :=
  match s.selectedNote with
  | none => s
  | some sel =>
    if trim sel.content = "" then s
    else
      { s with
        notes := s.notes.map
          (fun note => if note.id = sel.id then { sel with updatedAt := some today } else note)
        selectedNote := none }

/-- The events of the user interface: the three controls of the creation form
(lines 151, 171, 177), the buttons and the controls of the modal. -/
inductive Action where
  | setNoteTitle (value : String)
  | handleContentChange (value : String)
  | setNoteCategory (value : String)
  | addNote (now today : Int)
  | deleteNote (confirmDelete : Bool) (noteId : Int)
  | openNote (note : Note)
  | closeModal
  | handleModalChange (field : Field) (value : String)
  | saveNoteChanges (today : Int)
deriving DecidableEq, Repr

/-- One event applied to a state. -/
def step (s : State) : Action → State
  | Action.setNoteTitle value => { s with noteTitle := value }
  | Action.handleContentChange value => { s with noteContent := value }
  | Action.setNoteCategory value => { s with noteCategory := value }
  | Action.addNote now today => addNote s now today
  | Action.deleteNote confirmDelete noteId => deleteNote s confirmDelete noteId
  | Action.openNote note => openNote s note
  | Action.closeModal => closeModal s
  | Action.handleModalChange field value => handleModalChange s field value
  | Action.saveNoteChanges today => saveNoteChanges s today

/-- A finite sequence of events applied from left to right. -/
def run (s : State) (actions : List Action) : State :=
  actions.foldl step s

/-- The readings of `Date.now()` that a sequence of events hands to `addNote`. -/
def clockReadings : List Action → List Int
  | [] => []
  | Action.addNote now _ :: rest => now :: clockReadings rest
  | _ :: rest => clockReadings rest

/-! ## The date formatter -/

/-- What `formatDate` reads from its argument: the results of `getMonth`,
`getDate`, `getHours` and `getMinutes` (lines 57, 58, 70, 71). -/
structure DateFields where
  getMonth : Nat
  getDate : Nat
  getHours : Nat
  getMinutes : Nat
deriving DecidableEq, Repr

/-- The array `months` (lines 53-56). -/
def months : List String :=
  ["Jan", "Feb", "Mar", "Apr", "May", "Jun", "Jul", "Aug", "Sep", "Oct", "Nov", "Dec"]

/-- The inner function `getOrdinalSuffix` (lines 60-68). -/
def getOrdinalSuffix (day : Nat) : String :=
  if day > 3 ∧ day < 21 then "th"
  else
    match day % 10 with
    | 1 => "st"
    | 2 => "nd"
    | 3 => "rd"
    | _ => "th"

/-- The method `String.prototype.padStart`: a string already of the target
length, or an empty filler, gives the string back; otherwise the filler is
repeated and cut to the missing length and put in front. -/
def padStart (s : String) (targetLength : Nat) (padString : String) : String :=
  if targetLength ≤ s.length ∨ padString = "" then s
  else
    String.mk ((List.replicate (targetLength - s.length) padString.data).flatten.take
      (targetLength - s.length)) ++ s

/-- The constant `ampm` of `formatDate` (line 72). -/
def ampm (hours : Nat) : String :=
  if hours ≥ 12 then "PM" else "AM"

/-- The constant `displayHours` of `formatDate` (line 73), `hours % 12 || 12`:
a remainder of zero is falsy and gives 12. -/
def displayHours (hours : Nat) : Nat :=
  if hours % 12 = 0 then 12 else hours % 12

/-- The function `formatDate` (lines 52-76). An index outside `months` reads
`undefined`, which the template literal prints as such. -/
def formatDate (date : DateFields) : String :=
  let month := (months.get? date.getMonth).getD "undefined"
  let day := date.getDate
  let hours := date.getHours
  let minutes := padStart (toString date.getMinutes) 2 "0"
  month ++ " " ++ toString day ++ getOrdinalSuffix day ++ " " ++
    toString (displayHours hours) ++ ":" ++ minutes ++ " " ++ ampm hours

/-! ### The format as the specification words it -/

/-- The three-letter abbreviation of the month with index `m`. -/
def monthAbbreviation : Nat → String
  | 0 => "Jan"
  | 1 => "Feb"
  | 2 => "Mar"
  | 3 => "Apr"
  | 4 => "May"
  | 5 => "Jun"
  | 6 => "Jul"
  | 7 => "Aug"
  | 8 => "Sep"
  | 9 => "Oct"
  | 10 => "Nov"
  | _ => "Dec"

/-- The ordinal suffix rule of the specification: days 4 to 20 use "th",
otherwise the last digit decides. -/
def ordinalSuffixSpec (d : Nat) : String :=
  if 4 ≤ d ∧ d ≤ 20 then "th"
  else if d % 10 = 1 then "st"
  else if d % 10 = 2 then "nd"
  else if d % 10 = 3 then "rd"
  else "th"

/-- The hour of the 12-hour clock: midnight and noon read 12, the hours after
them read 1 to 11. -/
def twelveHourClock (h : Nat) : Nat :=
  if h = 0 ∨ h = 12 then 12 else if h < 12 then h else h - 12

/-- The hour rule as the specification words it: 12 for hour 0, the hour itself
from 1 to 11, the hour minus 12 from 12 to 23. -/
def displayHoursSpec (h : Nat) : Nat :=
  if h = 0 then 12 else if h ≤ 11 then h else h - 12

/-- The marker of the specification: "AM" for the hours 0 to 11, "PM" after. -/
def markerSpec (h : Nat) : String :=
  if h ≤ 11 then "AM" else "PM"

/-- A minute zero-padded to two digits. -/
def twoDigits (n : Nat) : String :=
  if n < 10 then "0" ++ toString n else toString n

/-- The display text of the specification:
"<Mon> <day><ordinal-suffix> <12-hour>:<minute-padded> <AM|PM>". -/
def formatDateSpec (m d h n : Nat) : String :=
  monthAbbreviation m ++ " " ++ toString d ++ ordinalSuffixSpec d ++ " " ++
    toString (twelveHourClock h) ++ ":" ++ twoDigits n ++ " " ++ markerSpec h

/-! ## The category colours -/

/-- A value of the object `categories`: the background colour and the accent
colour. -/
structure CategoryStyle where
  color : String
  borderColor : String
deriving DecidableEq, Repr

/-- The own properties of the object literal `categories` (lines 14-22). -/
def categories : List (String × CategoryStyle) :=
  [("Personal", { color := "#e3f2fd", borderColor := "#1976d2" }),
   ("Work", { color := "#f3e5f5", borderColor := "#7b1fa2" }),
   ("Study", { color := "#e8f5e8", borderColor := "#388e3c" }),
   ("Health", { color := "#fff3e0", borderColor := "#f57c00" }),
   ("Finance", { color := "#fce4ec", borderColor := "#c2185b" }),
   ("Ideas", { color := "#f1f8e9", borderColor := "#689f38" }),
   ("Shopping", { color := "#e0f2f1", borderColor := "#00796b" })]

/-- The property names that an object literal inherits from `Object.prototype`
(ECMAScript, properties of the Object prototype object, with the legacy
accessors). Each of them reads as a function, or for `__proto__` as the
prototype object: a truthy value that has no `color` and no `borderColor`. -/
def objectPrototypeNames : List String :=
  ["constructor", "hasOwnProperty", "isPrototypeOf", "propertyIsEnumerable",
   "toLocaleString", "toString", "valueOf", "__proto__", "__defineGetter__",
   "__defineSetter__", "__lookupGetter__", "__lookupSetter__"]

/-- What a read `categories[key]` evaluates to. -/
inductive Property where
  | style (value : CategoryStyle)
  | inherited
  | undefined
deriving DecidableEq, Repr

/-- The read `categories[key]`: an own property first, then the prototype of
the object literal, and `undefined` when neither has the name. -/
def categoriesGet (key : String) : Property :=
  match categories.lookup key with
  | some value => Property.style value
  | none => if key ∈ objectPrototypeNames then Property.inherited else Property.undefined

/-- The constant `categoryStyle` of a card (line 186),
`categories[note.category] || categories["Personal"]`. An absent category
(`none`) is the key "undefined". Only `undefined` is falsy among the values
that the read can give. -/
def categoryStyle (category : Option String) : Property :=
  match categoriesGet (category.getD "undefined") with
  | Property.undefined => categoriesGet "Personal"
  | found => found

/-- The read `.color` used for the background of the card (line 194); `none` is
`undefined`. -/
def Property.color : Property → Option String
  | Property.style value => some value.color
  | _ => none

/-- The read `.borderColor` used for the border and the badge (lines 195,
202); `none` is `undefined`. -/
def Property.borderColor : Property → Option String
  | Property.style value => some value.borderColor
  | _ => none

/-- The colour pair with which a card is rendered. -/
def cardColours (category : Option String) : Option String × Option String :=
  ((categoryStyle category).color, (categoryStyle category).borderColor)

/-! ## Local storage: the load and persist effects

The load effect works on whatever `JSON.parse` returns, and the collection it
builds is what the persist effect later writes, so this part is modelled
over untyped values. `JSON.parse`, the text that `JSON.stringify` writes for
a JSON tree, `Date.prototype.toISOString`, `Date.parse` and the text of an
object converted to a primitive belong to the host; they are parameters of
the model.
-/

/-- The values that the two effects handle: the results of `JSON.parse`,
`undefined` for a missing property, and `Date` objects (`none` is an
invalid date). A number is an integer, as the ids and the time values are.
An object is the list of its own properties, each name once. -/
inductive JSValue where
  | undefined
  | null
  | bool (b : Bool)
  | number (n : Int)
  | string (s : String)
  | date (time : Option Int)
  | array (items : List JSValue)
  | object (props : List (String × JSValue))
deriving Repr

/-- The exceptions of the load effect. -/
inductive JSError where
  | syntaxError
  | typeError
deriving DecidableEq, Repr

/-- The host functions used by the two effects. `jsonParse` is `JSON.parse`
(`none` when it raises a syntax error); `jsonText` is the text that
`JSON.stringify` writes for a JSON tree; `toISOString` is the text of a time
value, which `Date.prototype.toJSON` returns for a valid date; `dateParse` is
`Date.parse` (`none` for `NaN`); `primitiveText` is the string to which an
array or an object converts when the conversion does not raise. -/
structure Host where
  jsonParse : String → Option JSValue
  jsonText : JSValue → String
  toISOString : Int → String
  dateParse : String → Option Int
  primitiveText : JSValue → String

/-- Truthiness, as the conditional (line 34) and the operator `||` (line 35)
test it. -/
def JSValue.truthy : JSValue → Bool
  | JSValue.undefined => false
  | JSValue.null => false
  | JSValue.bool b => b
  | JSValue.number n => n != 0
  | JSValue.string s => s != ""
  | _ => true

/-- The reads `note.createdAt`, `note.updatedAt` and `note.category` on a
parsed value (lines 33-35). A read on `null` raises a type error; an object
gives its own property; every other value, and an object without the
property, gives `undefined`, because no prototype of a parsed value defines
one of these three names. -/
def JSValue.getProp (note : JSValue) (key : String) : Except JSError JSValue :=
  match note with
  | JSValue.null => Except.error JSError.typeError
  | JSValue.undefined => Except.error JSError.typeError
  | JSValue.object props => Except.ok ((props.lookup key).getD JSValue.undefined)
  | _ => Except.ok JSValue.undefined

/-- The own enumerable properties that the spread `...note` copies (line 32):
those of an object, the indexed elements of an array, the indexed characters
of a string, and none for every other value. -/
def JSValue.spread : JSValue → List (String × JSValue)
  | JSValue.object props => props
  | JSValue.array items => items.enum.map (fun p => (toString p.1, p.2))
  | JSValue.string s => s.data.enum.map (fun p => (toString p.1, JSValue.string (String.singleton p.2)))
  | _ => []

/-- A property written after the spread in an object literal: the value of an
existing name is replaced where it stands, a new name is added at the end. -/
def setProp : List (String × JSValue) → String → JSValue → List (String × JSValue)
  | [], key, value => [(key, value)]
  | (k, v) :: rest, key, value =>
    if k = key then (k, value) :: rest else (k, v) :: setProp rest key value

mutual
/-- Whether the conversion of a parsed value to a primitive, which `new Date`
performs on an array or an object, raises a type error. A parsed object
converts through `toString`: an own property of that name is never callable
and leaves no method that returns a primitive, otherwise the inherited
method answers. An array converts through `join`, which converts each
element that is not `null`, so it raises when one of its elements does. -/
def JSValue.toPrimitiveRaises : JSValue → Bool
  | JSValue.object props => props.any (fun p => p.1 == "toString")
  | JSValue.array items => joinRaises items
  | _ => false
/-- Whether the conversion of one of the elements of an array raises. -/
def joinRaises : List JSValue → Bool
  | [] => false
  | x :: xs => x.toPrimitiveRaises || joinRaises xs
end

/-- The abstract operation `TimeClip`: a time value beyond 8.64e15 milliseconds
from the epoch is not a time. -/
def timeClip (n : Int) : Option Int :=
  if n.natAbs ≤ 8640000000000000 then some n else none

/-- The time value of `new Date(value)` (lines 33-34), `none` for an invalid
date. A string is parsed; `undefined` is not a number, `null` is 0, a
boolean is 0 or 1 and a number is clipped; an array or an object is
converted to a primitive, which raises or gives a string to parse. -/
def newDate (host : Host) (value : JSValue) : Except JSError (Option Int) :=
  match value with
  | JSValue.date time => Except.ok time
  | JSValue.undefined => Except.ok none
  | JSValue.null => Except.ok (some 0)
  | JSValue.bool b => Except.ok (some (if b then 1 else 0))
  | JSValue.number n => Except.ok (timeClip n)
  | JSValue.string s => Except.ok (host.dateParse s)
  | JSValue.array items =>
    if (JSValue.array items).toPrimitiveRaises then Except.error JSError.typeError
    else Except.ok (host.dateParse (host.primitiveText (JSValue.array items)))
  | JSValue.object props =>
    if (JSValue.object props).toPrimitiveRaises then Except.error JSError.typeError
    else Except.ok (host.dateParse (host.primitiveText (JSValue.object props)))

/-- The callback of `parsedNotes.map` (lines 31-36), evaluated in the order of
the object literal. -/
def reviveNote (host : Host) (note : JSValue) : Except JSError JSValue := do
  let createdAt ← note.getProp "createdAt"
  let created ← newDate host createdAt
  let updatedAt ← note.getProp "updatedAt"
  let updated ←
    if updatedAt.truthy then (newDate host updatedAt).map JSValue.date
    else Except.ok JSValue.null
  let category ← note.getProp "category"
  pure (JSValue.object
    (setProp
      (setProp
        (setProp note.spread "createdAt" (JSValue.date created))
        "updatedAt" updated)
      "category"
      (if category.truthy then category else JSValue.string "Personal")))

/-- The call `parsedNotes.map(...)` (line 31): only an array has a callable
`map`; on every other parsed value the call raises a type error. The
callback runs on the elements in order and the first exception ends the
call. -/
def mapNotes (host : Host) : JSValue → Except JSError (List JSValue)
  | JSValue.array items => items.mapM (reviveNote host)
  | _ => Except.error JSError.typeError

/-- The body of the `try` block (lines 29-37): the collection handed to
`setNotes`, or the exception raised before that. -/
def tryLoad (host : Host) (stored : String) : Except JSError (List JSValue) :=
  match host.jsonParse stored with
  | none => Except.error JSError.syntaxError
  | some parsedNotes => mapNotes host parsedNotes

/-- The load effect (lines 25-44). `stored` is what `localStorage.getItem`
returned (`none` for `null`), `notes` the collection when the effect runs;
the result is the collection afterwards. A missing or empty text is falsy
and skips the block; an exception is caught and the collection is reset. -/
def loadEffect (host : Host) (stored : Option String) (notes : List JSValue) : List JSValue :=
  match stored with
  | none => notes
  | some text =>
    if text = "" then notes
    else
      match tryLoad host text with
      | Except.ok notesWithDates => notesWithDates
      | Except.error _ => []

mutual
/-- The JSON tree that `JSON.stringify` writes for a value held in memory, or
`none` when the value is left out. A valid `Date` is replaced by the string
that its `toJSON` returns and an invalid one by `null`; `undefined` is left
out; arrays and objects are walked. -/
def serialize (host : Host) : JSValue → Option JSValue
  | JSValue.undefined => none
  | JSValue.date (some time) => some (JSValue.string (host.toISOString time))
  | JSValue.date none => some JSValue.null
  | JSValue.array items => some (JSValue.array (serializeItems host items))
  | JSValue.object props => some (JSValue.object (serializeProps host props))
  | value => some value
/-- The elements of an array: one that is left out is written as `null`. -/
def serializeItems (host : Host) : List JSValue → List JSValue
  | [] => []
  | x :: xs => (serialize host x).getD JSValue.null :: serializeItems host xs
/-- The properties of an object: one whose value is left out is not written. -/
def serializeProps (host : Host) : List (String × JSValue) → List (String × JSValue)
  | [] => []
  | (key, value) :: rest =>
    match serialize host value with
    | some tree => (key, tree) :: serializeProps host rest
    | none => serializeProps host rest
end

/-- The call `JSON.stringify(notes)` (line 48) on the collection held in
memory. -/
def stringifyNotes (host : Host) (notes : List JSValue) : String :=
  host.jsonText (JSValue.array (serializeItems host notes))

/-- The persist effect (lines 46-50): what the storage slot holds afterwards. -/
def persistEffect (host : Host) (isInitialLoad : Bool) (notes : List JSValue)
    (storage : Option String) : Option String :=
  if !isInitialLoad then some (stringifyNotes host notes) else storage

/-- A null or a string of a JSON tree. -/
def jsonOptString : Option String → JSValue
  | none => JSValue.null
  | some s => JSValue.string s

/-- The note object held in memory for a note of the store: the six properties
in the order in which `addNote` writes them, with `Date` objects for the two
times. -/
def Note.toJS (n : Note) : JSValue :=
  JSValue.object
    [("id", JSValue.number n.id),
     ("title", jsonOptString n.title),
     ("content", JSValue.string n.content),
     ("category", JSValue.string n.category),
     ("createdAt", JSValue.date (some n.createdAt)),
     ("updatedAt",
       match n.updatedAt with
       | none => JSValue.null
       | some t => JSValue.date (some t))]

/-- The JSON tree of a note of the store, as the schema of the storage slot
describes it: the six properties, the two times in their textual form. -/
def Note.toJSON (host : Host) (n : Note) : JSValue :=
  JSValue.object
    [("id", JSValue.number n.id),
     ("title", jsonOptString n.title),
     ("content", JSValue.string n.content),
     ("category", JSValue.string n.category),
     ("createdAt", JSValue.string (host.toISOString n.createdAt)),
     ("updatedAt",
       match n.updatedAt with
       | none => JSValue.null
       | some t => JSValue.string (host.toISOString t))]

/-- The host reads a JSON tree back from the text it writes for it: the text
is not empty and `JSON.parse` of it is the tree. -/
def ReadsBackTree (host : Host) (tree : JSValue) : Prop :=
  host.jsonText tree ≠ "" ∧ host.jsonParse (host.jsonText tree) = some tree

/-- The host reads a time back from its textual form: the text is not empty
and `Date.parse` of it is the time. -/
def ReadsBackTime (host : Host) (time : Int) : Prop :=
  host.toISOString time ≠ "" ∧ host.dateParse (host.toISOString time) = some time

/-- The times of a note of the store. -/
def Note.times (n : Note) : List Int :=
  n.createdAt :: n.updatedAt.toList

/-! ### The shapes of a parsed value -/

/-- The values on which the reads of `reviveNote` raise. -/
def JSValue.isNullish : JSValue → Bool
  | JSValue.null => true
  | JSValue.undefined => true
  | _ => false

/-- The value of a property of a parsed value that is not `null`. -/
def JSValue.field (note : JSValue) (key : String) : JSValue :=
  match note with
  | JSValue.object props => (props.lookup key).getD JSValue.undefined
  | _ => JSValue.undefined

/-- The elements on which the callback of the map raises: `null`, and a value
whose `createdAt` or `updatedAt` is an array or an object that does not
convert to a primitive. -/
def reviveRaises (note : JSValue) : Bool :=
  note.isNullish || (note.field "createdAt").toPrimitiveRaises ||
    (note.field "updatedAt").toPrimitiveRaises

/-- The parsed values on which `parsedNotes.map(...)` raises: every value that
is not an array, and an array with an element on which the callback raises. -/
def mapRaises : JSValue → Bool
  | JSValue.array items => items.any reviveRaises
  | _ => true

/-- A stored note as the schema of the storage slot describes it: an object
with a number `id`, a string or null `title`, a string `content`, a string
`category`, a string `createdAt` and a string or null `updatedAt`. -/
def isStoredNote (value : JSValue) : Bool :=
  match value with
  | JSValue.object _ =>
    (match value.field "id" with
      | JSValue.number _ => true
      | _ => false) &&
    (match value.field "title" with
      | JSValue.string _ => true
      | JSValue.null => true
      | _ => false) &&
    (match value.field "content" with
      | JSValue.string _ => true
      | _ => false) &&
    (match value.field "category" with
      | JSValue.string _ => true
      | _ => false) &&
    (match value.field "createdAt" with
      | JSValue.string _ => true
      | _ => false) &&
    (match value.field "updatedAt" with
      | JSValue.string _ => true
      | JSValue.null => true
      | _ => false)
  | _ => false

/-- A parsed value that is an array of stored notes. -/
def isNoteArray : JSValue → Bool
  | JSValue.array items => items.all isStoredNote
  | _ => false

/-! ### A host fragment -/

/-- A hexadecimal digit in lower case. -/
def hexDigit (n : Nat) : Char :=
  if n < 10 then Char.ofNat (48 + n) else Char.ofNat (87 + n)

/-- A character inside a JSON string, as `JSON.stringify` quotes it: the two
characters that end or escape a string and the control characters are
escaped, every other character is written as it is. -/
def quoteJSONChar (c : Char) : String :=
  if c.toNat = 0x08 then "\\b"
  else if c.toNat = 0x09 then "\\t"
  else if c.toNat = 0x0A then "\\n"
  else if c.toNat = 0x0C then "\\f"
  else if c.toNat = 0x0D then "\\r"
  else if c.toNat = 0x22 then "\\\""
  else if c.toNat = 0x5C then "\\\\"
  else if c.toNat < 0x20 then
    "\\u00" ++ String.mk [hexDigit (c.toNat / 16), hexDigit (c.toNat % 16)]
  else String.singleton c

/-- A JSON string in its quotes. -/
def quoteJSONString (s : String) : String :=
  "\"" ++ String.join (s.data.map quoteJSONChar) ++ "\""

mutual
/-- The text that `JSON.stringify` writes for a JSON tree, without
indentation. -/
def jsonWrite : JSValue → String
  | JSValue.bool true => "true"
  | JSValue.bool false => "false"
  | JSValue.number n => toString n
  | JSValue.string s => quoteJSONString s
  | JSValue.array items => "[" ++ String.intercalate "," (jsonWriteItems items) ++ "]"
  | JSValue.object props => "\x7b" ++ String.intercalate "," (jsonWriteProps props) ++ "\x7d"
  | _ => "null"
/-- The texts of the elements of an array. -/
def jsonWriteItems : List JSValue → List String
  | [] => []
  | x :: xs => jsonWrite x :: jsonWriteItems xs
/-- The texts of the properties of an object. -/
def jsonWriteProps : List (String × JSValue) → List String
  | [] => []
  | (key, value) :: rest =>
    (quoteJSONString key ++ ":" ++ jsonWrite value) :: jsonWriteProps rest
end

/-- A fragment of a host, enough for a few stored texts and times. It writes
the JSON text of a tree, `JSON.parse` reads the texts of `table` and rejects
every other text, the times of `times` have the text listed with them, and
`Date.parse` reads these texts and no other. -/
def fragmentHost (table : List (String × JSValue)) (times : List (Int × String)) : Host :=
  { jsonParse := fun s => table.lookup s
    jsonText := jsonWrite
    toISOString := fun t => (times.lookup t).getD ""
    dateParse := fun s => (times.find? (fun p => p.2 == s)).map (fun p => p.1)
    primitiveText := fun _ => "[object Object]" }

/-! ## The events that the rendered interface can fire -/

/-- The options of the two selects (lines 161-165, 256-260): the keys of
`categories`. -/
def categoryNames : List String :=
  categories.map Prod.fst

/-- An event as the rendered interface fires it in a state: a select delivers
one of its options, and the card that is clicked shows a note of the
collection (line 192). -/
def fires (s : State) : Action → Prop
  | Action.setNoteCategory value => value ∈ categoryNames
  | Action.handleModalChange Field.category value => value ∈ categoryNames
  | Action.openNote note => note ∈ s.notes
  | _ => True

/-- A sequence of events, each fired in the state that the earlier ones left. -/
def firesAll (s : State) : List Action → Prop
  | [] => True
  | a :: rest => fires s a ∧ firesAll (step s a) rest

/-! ## Sample states -/

/-- A state with the draft content "  hello  " and a blank draft title. -/
def helloDraft : State :=
  { initialState with noteTitle := "   ", noteContent := "  hello  ", noteCategory := "Work" }

/-- A note of the sample collection. -/
def sampleNote : Note :=
  { id := 1, title := some "List", content := "milk", category := "Shopping",
    createdAt := 1000, updatedAt := none }

/-- A second note of the sample collection. -/
def otherNote : Note :=
  { id := 2, title := none, content := "call", category := "Work",
    createdAt := 2000, updatedAt := none }

/-- A state in which the first sample note is open and has been edited. -/
def editingState : State :=
  { initialState with
    notes := [sampleNote, otherNote]
    selectedNote := some { sampleNote with content := "milk, eggs" } }

/-- The draft "  hello  " typed and added, a blank draft typed and added, and
the note opened, blanked in the modal and saved. -/
def blankAttempts : List Action :=
  [Action.handleContentChange "  hello  ", Action.addNote 7 7,
   Action.handleContentChange "   ", Action.addNote 8 8,
   Action.openNote { id := 7, title := none, content := "  hello  ", category := "Personal",
                     createdAt := 7, updatedAt := none },
   Action.handleModalChange Field.content " ", Action.saveNoteChanges 9]

/-- Two notes added while the clock reads the same millisecond. -/
def sameMillisecond : List Action :=
  [Action.handleContentChange "a", Action.addNote 1 1,
   Action.handleContentChange "b", Action.addNote 1 1]

/-- Two notes added at different clock readings, the first then edited and the
second deleted. -/
def distinctReadings : List Action :=
  [Action.handleContentChange "a", Action.addNote 1 1,
   Action.handleContentChange "b", Action.addNote 2 2,
   Action.openNote { id := 1, title := none, content := "a", category := "Personal",
                     createdAt := 1, updatedAt := none },
   Action.handleModalChange Field.content "c", Action.saveNoteChanges 3,
   Action.deleteNote true 2]

/-! ## Sample stored texts -/

/-- A stored note whose `createdAt` is not the text of a date. -/
def soonTree : JSValue :=
  JSValue.array
    [JSValue.object
      [("id", JSValue.number 1),
       ("title", JSValue.null),
       ("content", JSValue.string "x"),
       ("category", JSValue.string "Work"),
       ("createdAt", JSValue.string "soon"),
       ("updatedAt", JSValue.null)]]

/-- The text of `soonTree`. -/
def soonText : String :=
  "[\x7b\"id\":1,\"title\":null,\"content\":\"x\",\"category\":\"Work\"," ++
    "\"createdAt\":\"soon\",\"updatedAt\":null\x7d]"

/-- The note that the load effect builds from `soonText`: its `createdAt` is an
invalid date. -/
def soonNote : JSValue :=
  JSValue.object
    [("id", JSValue.number 1),
     ("title", JSValue.null),
     ("content", JSValue.string "x"),
     ("category", JSValue.string "Work"),
     ("createdAt", JSValue.date none),
     ("updatedAt", JSValue.null)]

/-- The JSON tree written for the collection that holds `soonNote`: the invalid
date is written as `null`. -/
def soonWrittenTree : JSValue :=
  JSValue.array
    [JSValue.object
      [("id", JSValue.number 1),
       ("title", JSValue.null),
       ("content", JSValue.string "x"),
       ("category", JSValue.string "Work"),
       ("createdAt", JSValue.null),
       ("updatedAt", JSValue.null)]]

/-- The text of `soonWrittenTree`. -/
def soonWrittenText : String :=
  "[\x7b\"id\":1,\"title\":null,\"content\":\"x\",\"category\":\"Work\"," ++
    "\"createdAt\":null,\"updatedAt\":null\x7d]"

/-- The note read back from `soonWrittenText`: its `createdAt` is the epoch. -/
def epochNote : JSValue :=
  JSValue.object
    [("id", JSValue.number 1),
     ("title", JSValue.null),
     ("content", JSValue.string "x"),
     ("category", JSValue.string "Work"),
     ("createdAt", JSValue.date (some 0)),
     ("updatedAt", JSValue.null)]

/-- A host fragment that reads `soonText` and `soonWrittenText` and for which
"soon" is not the text of a date. -/
def soonHost : Host :=
  fragmentHost [(soonText, soonTree), (soonWrittenText, soonWrittenTree)]
    [(0, "1970-01-01T00:00:00.000Z")]

/-- A note created and edited on June 3rd 2024 at 14:05 UTC. -/
def juneNote : Note :=
  { id := 1717423500000, title := some "List", content := "  milk  ", category := "Shopping",
    createdAt := 1717423500000, updatedAt := some 1717423500000 }

/-- The text written for the collection that holds `juneNote`. -/
def juneText : String :=
  "[\x7b\"id\":1717423500000,\"title\":\"List\",\"content\":\"  milk  \"," ++
    "\"category\":\"Shopping\",\"createdAt\":\"2024-06-03T14:05:00.000Z\"," ++
    "\"updatedAt\":\"2024-06-03T14:05:00.000Z\"\x7d]"

/-- The JSON tree of the collection that holds `juneNote`. -/
def juneTree : JSValue :=
  JSValue.array
    [JSValue.object
      [("id", JSValue.number 1717423500000),
       ("title", JSValue.string "List"),
       ("content", JSValue.string "  milk  "),
       ("category", JSValue.string "Shopping"),
       ("createdAt", JSValue.string "2024-06-03T14:05:00.000Z"),
       ("updatedAt", JSValue.string "2024-06-03T14:05:00.000Z")]]

/-- A host fragment for the collection that holds `juneNote`. -/
def juneHost : Host :=
  fragmentHost [(juneText, juneTree)] [(1717423500000, "2024-06-03T14:05:00.000Z")]

/-- A host fragment that reads the stored texts "[null]", "5" and
"[\x7b\x7d]". -/
def malformedHost : Host :=
  fragmentHost
    [("[null]", JSValue.array [JSValue.null]),
     ("5", JSValue.number 5),
     ("[\x7b\x7d]", JSValue.array [JSValue.object []])]
    [(0, "1970-01-01T00:00:00.000Z")]

end QuickNotes

namespace QuickNotes

/-! ## The note store: lemmas -/

theorem addNote_of_blank (s : State) (now today : Int) (h : trim s.noteContent = "") :
    addNote s now today = s := by
  simp [addNote, h]

theorem addNote_of_nonblank (s : State) (now today : Int) (h : trim s.noteContent ≠ "") :
    addNote s now today =
      { s with
        notes := s.notes ++
          [{ id := now
             title := if trim s.noteTitle = "" then none else some (trim s.noteTitle)
             content := s.noteContent
             category := s.noteCategory
             createdAt := today
             updatedAt := none }]
        noteContent := ""
        noteTitle := ""
        noteCategory := "Personal" } := by
  simp [addNote, h]

theorem saveNoteChanges_of_blank (s : State) (b : Note) (today : Int)
    (hOpen : s.selectedNote = some b) (h : trim b.content = "") :
    saveNoteChanges s today = s := by
  simp [saveNoteChanges, hOpen, h]

theorem saveNoteChanges_of_nonblank (s : State) (b : Note) (today : Int)
    (hOpen : s.selectedNote = some b) (h : trim b.content ≠ "") :
    saveNoteChanges s today =
      { s with
        notes := s.notes.map
          (fun note => if note.id = b.id then { b with updatedAt := some today } else note)
        selectedNote := none } := by
  simp [saveNoteChanges, hOpen, h]

theorem saveNoteChanges_of_closed (s : State) (today : Int) (hClosed : s.selectedNote = none) :
    saveNoteChanges s today = s := by
  simp [saveNoteChanges, hClosed]

/-- One event keeps every content of the collection non-blank. -/
theorem step_content_nonblank (s : State) (a : Action)
    (h : ∀ note ∈ s.notes, trim note.content ≠ "") :
    ∀ note ∈ (step s a).notes, trim note.content ≠ "" := by
  cases a with
  | setNoteTitle value => exact h
  | handleContentChange value => exact h
  | setNoteCategory value => exact h
  | addNote now today =>
    show ∀ note ∈ (addNote s now today).notes, trim note.content ≠ ""
    by_cases hc : trim s.noteContent = ""
    · rw [addNote_of_blank s now today hc]; exact h
    · rw [addNote_of_nonblank s now today hc]
      intro note hmem
      simp only [List.mem_append, List.mem_singleton] at hmem
      rcases hmem with hmem | rfl
      · exact h note hmem
      · exact hc
  | deleteNote confirmDelete noteId =>
    show ∀ note ∈ (deleteNote s confirmDelete noteId).notes, trim note.content ≠ ""
    cases confirmDelete with
    | false => exact h
    | true =>
      intro note hmem
      simp only [deleteNote, if_true, List.mem_filter] at hmem
      exact h note hmem.1
  | openNote note => exact h
  | closeModal => exact h
  | handleModalChange field value =>
    show ∀ note ∈ (handleModalChange s field value).notes, trim note.content ≠ ""
    unfold handleModalChange
    cases s.selectedNote with
    | none => exact h
    | some prev => cases field <;> exact h
  | saveNoteChanges today =>
    show ∀ note ∈ (saveNoteChanges s today).notes, trim note.content ≠ ""
    cases hOpen : s.selectedNote with
    | none => rw [saveNoteChanges_of_closed s today hOpen]; exact h
    | some b =>
      by_cases hc : trim b.content = ""
      · rw [saveNoteChanges_of_blank s b today hOpen hc]; exact h
      · rw [saveNoteChanges_of_nonblank s b today hOpen hc]
        intro note hmem
        simp only [List.mem_map] at hmem
        obtain ⟨old, hold, rfl⟩ := hmem
        by_cases hid : old.id = b.id
        · simp only [hid, if_true]; exact hc
        · simp only [hid, if_false]; exact h old hold

theorem run_content_nonblank (actions : List Action) (s : State)
    (h : ∀ note ∈ s.notes, trim note.content ≠ "") :
    ∀ note ∈ (run s actions).notes, trim note.content ≠ "" := by
  induction actions generalizing s with
  | nil => exact h
  | cons a rest ih => exact ih (step s a) (step_content_nonblank s a h)

/-- Claim C1. Starting from the empty collection, after every finite sequence of
events (drafts typed, `addNote`, `deleteNote` confirmed or declined,
`openNote`, `handleModalChange` on title, content or category,
`saveNoteChanges`, `closeModal`) every note of the collection has a content
whose trimmed form is not empty. -/
theorem C1_content_never_blank (actions : List Action) :
    ∀ note ∈ (run initialState actions).notes, trim note.content ≠ "" :=
  run_content_nonblank actions initialState (by intro note hmem; cases hmem)

/-- After the blank attempts the collection holds the note "  hello  " alone,
and its trimmed content is not empty. -/
theorem C1_content_never_blank_witness :
    (run initialState blankAttempts).notes =
      [{ id := 7, title := none, content := "  hello  ", category := "Personal",
         createdAt := 7, updatedAt := none }] ∧
    trim "  hello  " ≠ "" :=
  ⟨by decide,
    C1_content_never_blank blankAttempts
      { id := 7, title := none, content := "  hello  ", category := "Personal",
        createdAt := 7, updatedAt := none } (by decide)⟩

/-- Claim C2. When the draft content trims to empty, `addNote` changes nothing
(collection, drafts, edit buffer). Otherwise the collection is the old one
followed by exactly one new note: its content is the draft content as typed
(not trimmed), its title is null when the draft title is blank, its category
is the draft category and its `updatedAt` is null; the drafts are reset to an
empty title, an empty content and the category "Personal". -/
theorem C2_addNote (s : State) (now today : Int) :
    (trim s.noteContent = "" → addNote s now today = s) ∧
    (trim s.noteContent ≠ "" →
      ∃ newNote : Note,
        (addNote s now today).notes = s.notes ++ [newNote] ∧
        newNote.content = s.noteContent ∧
        (trim s.noteTitle = "" → newNote.title = none) ∧
        newNote.category = s.noteCategory ∧
        newNote.updatedAt = none ∧
        (addNote s now today).noteTitle = "" ∧
        (addNote s now today).noteContent = "" ∧
        (addNote s now today).noteCategory = "Personal") := by
  refine ⟨addNote_of_blank s now today, fun hc => ?_⟩
  rw [addNote_of_nonblank s now today hc]
  refine ⟨_, rfl, rfl, ?_, rfl, rfl, rfl, rfl, rfl⟩
  intro ht
  simp [ht]

/-- The content "  hello  " with a blank title is stored as "  hello  " with a
null title. -/
theorem C2_addNote_witness :
    ∃ newNote : Note,
      (addNote helloDraft 7 7).notes = [newNote] ∧
      newNote.content = "  hello  " ∧ newNote.title = none ∧
      newNote.category = "Work" ∧
      (addNote helloDraft 7 7).noteCategory = "Personal" := by
  obtain ⟨newNote, h1, h2, h3, h4, _, _, _, h8⟩ := (C2_addNote helloDraft 7 7).2 (by decide)
  exact ⟨newNote, h1, h2, h3 (by decide), h4, h8⟩

/-- Claim C3. With an open edit buffer `b`: when the content of `b` trims to
empty, `saveNoteChanges` changes neither the collection nor the buffer.
Otherwise the collection keeps its length and order, every note whose id is
the id of `b` is replaced by the fields of `b` with `updatedAt` set to the
current time, every other note is unchanged, and the buffer is closed. -/
theorem C3_saveNoteChanges (s : State) (b : Note) (today : Int)
    (hOpen : s.selectedNote = some b) :
    (trim b.content = "" →
      (saveNoteChanges s today).notes = s.notes ∧
      (saveNoteChanges s today).selectedNote = some b) ∧
    (trim b.content ≠ "" →
      (saveNoteChanges s today).notes.length = s.notes.length ∧
      (∀ (i : Nat) (note : Note), s.notes[i]? = some note → note.id = b.id →
        (saveNoteChanges s today).notes[i]? = some { b with updatedAt := some today }) ∧
      (∀ (i : Nat) (note : Note), s.notes[i]? = some note → note.id ≠ b.id →
        (saveNoteChanges s today).notes[i]? = some note) ∧
      (saveNoteChanges s today).selectedNote = none) := by
  constructor
  · intro hc
    rw [saveNoteChanges_of_blank s b today hOpen hc]
    exact ⟨rfl, hOpen⟩
  · intro hc
    rw [saveNoteChanges_of_nonblank s b today hOpen hc]
    refine ⟨by simp, ?_, ?_, rfl⟩
    · intro i note hi hid
      simp [List.getElem?_map, hi, hid]
    · intro i note hi hid
      simp [List.getElem?_map, hi, hid]

/-- Saving the edited first sample note replaces it in place and closes the
buffer. -/
theorem C3_saveNoteChanges_witness :
    (saveNoteChanges editingState 5000).notes.length = 2 ∧
    (saveNoteChanges editingState 5000).notes[0]? =
      some { sampleNote with content := "milk, eggs", updatedAt := some 5000 } ∧
    (saveNoteChanges editingState 5000).notes[1]? = some otherNote ∧
    (saveNoteChanges editingState 5000).selectedNote = none := by
  obtain ⟨h1, h2, h3, h4⟩ :=
    (C3_saveNoteChanges editingState { sampleNote with content := "milk, eggs" } 5000 rfl).2
      (by decide)
  exact ⟨h1, h2 0 sampleNote rfl rfl, h3 1 otherNote rfl (by decide), h4⟩

/-- Claim C4. A declined `deleteNote` changes nothing. A confirmed one leaves the
notes whose id differs from the given id, in their original order, and
closes the edit buffer exactly when the open note has the deleted id. -/
theorem C4_deleteNote (s : State) (noteId : Int) :
    deleteNote s false noteId = s ∧
    (deleteNote s true noteId).notes = s.notes.filter (fun note => decide (note.id ≠ noteId)) ∧
    (deleteNote s true noteId).notes.Sublist s.notes ∧
    (∀ note, note ∈ (deleteNote s true noteId).notes ↔ note ∈ s.notes ∧ note.id ≠ noteId) ∧
    (∀ b, s.selectedNote = some b → b.id = noteId →
      (deleteNote s true noteId).selectedNote = none) ∧
    (∀ b, s.selectedNote = some b → b.id ≠ noteId →
      (deleteNote s true noteId).selectedNote = some b) ∧
    (s.selectedNote = none → (deleteNote s true noteId).selectedNote = none) := by
  refine ⟨rfl, ?_, ?_, ?_, ?_, ?_, ?_⟩
  · simp only [deleteNote, if_true]
    apply List.filter_congr
    intro note _
    by_cases h : note.id = noteId <;> simp [h]
  · simp only [deleteNote, if_true]
    exact List.filter_sublist _
  · intro note
    simp [deleteNote]
  · intro b hb hid
    simp [deleteNote, hb, hid]
  · intro b hb hid
    simp [deleteNote, hb, hid]
  · intro hb
    simp [deleteNote, hb]

/-- Deleting the open first sample note removes it and closes the buffer. -/
theorem C4_deleteNote_witness :
    (deleteNote editingState true 1).notes = [otherNote] ∧
    (deleteNote editingState true 1).selectedNote = none ∧
    (deleteNote editingState true 2).selectedNote = editingState.selectedNote ∧
    deleteNote editingState false 1 = editingState := by
  obtain ⟨h1, h2, _, _, h5, h6, _⟩ := C4_deleteNote editingState 1
  obtain ⟨_, _, _, _, _, k6, _⟩ := C4_deleteNote editingState 2
  exact ⟨by rw [h2]; decide, h5 _ rfl rfl, k6 _ rfl (by decide), h1⟩

/-! ## Ids -/

theorem saveNoteChanges_ids (s : State) (today : Int) :
    (saveNoteChanges s today).notes.map (fun note => note.id) =
      s.notes.map (fun note => note.id) := by
  cases hOpen : s.selectedNote with
  | none => rw [saveNoteChanges_of_closed s today hOpen]
  | some b =>
    by_cases hc : trim b.content = ""
    · rw [saveNoteChanges_of_blank s b today hOpen hc]
    · rw [saveNoteChanges_of_nonblank s b today hOpen hc]
      simp only [List.map_map]
      apply List.map_congr_left
      intro note _
      by_cases hid : note.id = b.id <;> simp [hid]

theorem deleteNote_ids_sublist (s : State) (confirmDelete : Bool) (noteId : Int) :
    ((deleteNote s confirmDelete noteId).notes.map (fun note => note.id)).Sublist
      (s.notes.map (fun note => note.id)) := by
  cases confirmDelete with
  | false => exact List.Sublist.refl _
  | true =>
    simp only [deleteNote, if_true]
    exact (List.filter_sublist _).map _

/-- The ids after a run are pairwise distinct when they are so before it, the
clock readings of the run are pairwise distinct, and no reading of the run
is an id already in use. -/
theorem run_ids_nodup (actions : List Action) (s : State)
    (hs : (s.notes.map (fun note => note.id)).Nodup)
    (hr : (clockReadings actions).Nodup)
    (hfresh : ∀ x ∈ s.notes.map (fun note => note.id), x ∉ clockReadings actions) :
    ((run s actions).notes.map (fun note => note.id)).Nodup := by
  induction actions generalizing s with
  | nil => exact hs
  | cons a rest ih =>
    have keep : ∀ t : State,
        (t.notes.map (fun note => note.id)).Sublist (s.notes.map (fun note => note.id)) →
        clockReadings (a :: rest) = clockReadings rest →
        ((run t rest).notes.map (fun note => note.id)).Nodup := by
      intro t hsub hread
      rw [hread] at hr hfresh
      exact ih t (hs.sublist hsub) hr (fun x hx => hfresh x (hsub.subset hx))
    cases a with
    | setNoteTitle value => exact keep _ (List.Sublist.refl _) rfl
    | handleContentChange value => exact keep _ (List.Sublist.refl _) rfl
    | setNoteCategory value => exact keep _ (List.Sublist.refl _) rfl
    | deleteNote confirmDelete noteId =>
      exact keep _ (deleteNote_ids_sublist s confirmDelete noteId) rfl
    | openNote note => exact keep _ (List.Sublist.refl _) rfl
    | closeModal => exact keep _ (List.Sublist.refl _) rfl
    | handleModalChange field value =>
      refine keep (handleModalChange s field value) ?_ rfl
      unfold handleModalChange
      cases s.selectedNote with
      | none => exact List.Sublist.refl _
      | some prev => cases field <;> exact List.Sublist.refl _
    | saveNoteChanges today =>
      refine keep (saveNoteChanges s today) ?_ rfl
      rw [saveNoteChanges_ids]
    | addNote now today =>
      have hread : clockReadings (Action.addNote now today :: rest) =
          now :: clockReadings rest := rfl
      rw [hread] at hr hfresh
      have hrest : (clockReadings rest).Nodup := (List.nodup_cons.mp hr).2
      have hnow : now ∉ clockReadings rest := (List.nodup_cons.mp hr).1
      show ((run (addNote s now today) rest).notes.map (fun note => note.id)).Nodup
      by_cases hc : trim s.noteContent = ""
      · rw [addNote_of_blank s now today hc]
        exact ih s hs hrest (fun x hx hmem => hfresh x hx (List.mem_cons_of_mem _ hmem))
      · rw [addNote_of_nonblank s now today hc]
        apply ih
        · simp only [List.map_append, List.map_cons, List.map_nil]
          apply List.Nodup.append hs (List.nodup_singleton _)
          intro x hx hx2
          rw [List.mem_singleton] at hx2
          exact hfresh x hx (by rw [hx2]; exact List.mem_cons_self _ _)
        · exact hrest
        · intro x hx
          simp only [List.map_append, List.map_cons, List.map_nil, List.mem_append,
            List.mem_singleton] at hx
          rcases hx with hx | rfl
          · exact fun hmem => hfresh x hx (List.mem_cons_of_mem _ hmem)
          · exact hnow

/-- Claim C10, as stated, fails. Two notes added while `Date.now()` reads the same
millisecond carry the same id. -/
theorem C10_same_reading_duplicates_id :
    (run initialState sameMillisecond).notes.map (fun note => note.id) = [1, 1] ∧
    ¬ ((run initialState sameMillisecond).notes.map (fun note => note.id)).Nodup := by
  decide

/-- Claim C10, amended. In every state reached from the empty collection by a
finite sequence of events, when the clock readings handed to `addNote` as
new ids are pairwise distinct, no two notes of the collection have the same
id. -/
theorem C10_ids_distinct_of_distinct_readings (actions : List Action)
    (hr : (clockReadings actions).Nodup) :
    ((run initialState actions).notes.map (fun note => note.id)).Nodup :=
  run_ids_nodup actions initialState List.nodup_nil hr (by intro x hx; cases hx)

/-- A run with the readings 1 and 2 ends with pairwise distinct ids. -/
theorem C10_ids_distinct_witness :
    (clockReadings distinctReadings).Nodup ∧
    ((run initialState distinctReadings).notes.map (fun note => note.id)).Nodup :=
  ⟨by decide, C10_ids_distinct_of_distinct_readings distinctReadings (by decide)⟩

/-! ## The date formatter: the code against the specification -/

theorem months_get (m : Nat) (hm : m ≤ 11) :
    (months.get? m).getD "undefined" = monthAbbreviation m := by
  interval_cases m <;> rfl

theorem getOrdinalSuffix_eq_spec (d : Nat) : getOrdinalSuffix d = ordinalSuffixSpec d := by
  unfold getOrdinalSuffix ordinalSuffixSpec
  by_cases h : d > 3 ∧ d < 21
  · have h2 : 4 ≤ d ∧ d ≤ 20 := by omega
    rw [if_pos h, if_pos h2]
  · have h2 : ¬ (4 ≤ d ∧ d ≤ 20) := by omega
    rw [if_neg h, if_neg h2]
    have hlt : d % 10 < 10 := Nat.mod_lt _ (by decide)
    generalize d % 10 = r at hlt
    interval_cases r <;> rfl

theorem displayHours_eq_clock (h : Nat) (hh : h ≤ 23) : displayHours h = twelveHourClock h := by
  interval_cases h <;> rfl

theorem ampm_eq_marker (h : Nat) : ampm h = markerSpec h := by
  unfold ampm markerSpec
  by_cases hh : h ≥ 12
  · rw [if_pos hh, if_neg (by omega)]
  · rw [if_neg hh, if_pos (by omega)]

theorem padStart_minutes (n : Nat) (hn : n ≤ 59) : padStart (toString n) 2 "0" = twoDigits n := by
  have key : ∀ k, k < 60 → padStart (toString k) 2 "0" = twoDigits k := by decide
  exact key n (by omega)

theorem formatDate_eq_spec (m d h n : Nat) (hm : m ≤ 11) (hh : h ≤ 23) (hn : n ≤ 59) :
    formatDate ⟨m, d, h, n⟩ = formatDateSpec m d h n := by
  simp only [formatDate, formatDateSpec, months_get m hm, getOrdinalSuffix_eq_spec,
    displayHours_eq_clock h hh, ampm_eq_marker, padStart_minutes n hn]

/-- Claim C7. For a month index `m` in 0..11, a day `d` in 1..31, an hour `h` in
0..23 and a minute `n` in 0..59, `formatDate` returns the three-letter month
abbreviation, a space, `d` in decimal, the ordinal suffix of `d` ("th" from
4 to 20, otherwise "st", "nd", "rd" for the last digits 1, 2, 3 and "th"
for the others), a space, the hour of the 12-hour clock, a colon, `n` padded
to two digits, a space and "AM" or "PM". June 3rd 14:05 gives
"Jun 3rd 2:05 PM"; 00:05 gives the time part "12:05 AM"; the 21st at
13:00 gives "21st 1:00 PM". -/
theorem C7_formatDate (m d h n : Nat) (hm : m ≤ 11) (_hd : 1 ≤ d ∧ d ≤ 31) (hh : h ≤ 23)
    (hn : n ≤ 59) :
    formatDate ⟨m, d, h, n⟩ = formatDateSpec m d h n ∧
    formatDate ⟨5, 3, 14, 5⟩ = "Jun 3rd 2:05 PM" ∧
    formatDate ⟨m, d, 0, 5⟩ =
      monthAbbreviation m ++ " " ++ toString d ++ ordinalSuffixSpec d ++ " " ++ "12:05 AM" ∧
    formatDate ⟨m, 21, 13, 0⟩ = monthAbbreviation m ++ " " ++ "21st 1:00 PM" := by
  refine ⟨formatDate_eq_spec m d h n hm hh hn, by decide, ?_, ?_⟩
  · rw [formatDate_eq_spec m d 0 5 hm (by decide) (by decide)]
    have e : toString (twelveHourClock 0) ++ ":" ++ twoDigits 5 ++ " " ++ markerSpec 0 =
        "12:05 AM" := by decide
    rw [← e]
    simp only [formatDateSpec, String.append_assoc]
  · rw [formatDate_eq_spec m 21 13 0 hm (by decide) (by decide)]
    have e : toString 21 ++ ordinalSuffixSpec 21 ++ " " ++ toString (twelveHourClock 13) ++
        ":" ++ twoDigits 0 ++ " " ++ markerSpec 13 = "21st 1:00 PM" := by decide
    rw [← e]
    simp only [formatDateSpec, String.append_assoc]

/-- The first of January at 09:07 renders as "Jan 1st 9:07 AM". -/
theorem C7_formatDate_witness :
    formatDate ⟨0, 1, 9, 7⟩ = "Jan 1st 9:07 AM" ∧
    formatDate ⟨0, 1, 0, 5⟩ = "Jan 1st 12:05 AM" ∧
    formatDate ⟨0, 21, 13, 0⟩ = "Jan 21st 1:00 PM" := by
  obtain ⟨h1, _, h3, h4⟩ :=
    C7_formatDate 0 1 9 7 (by decide) (by decide) (by decide) (by decide)
  refine ⟨h1.trans (by decide), h3.trans (by decide), h4.trans (by decide)⟩

/-- Claim C8, as stated, fails at noon. Hour 12 is in the range 12..23, where the
claim gives the hour minus 12, which is 0; `formatDate` displays 12. -/
theorem C8_noon_displays_twelve :
    12 ≤ 23 ∧ displayHours 12 = 12 ∧ displayHoursSpec 12 = 0 ∧
    displayHours 12 ≠ displayHoursSpec 12 := by
  decide

/-- Claim C8, amended. For every hour `h` in 0..23 the hour number that
`formatDate` displays is 12 when `h` is 0 or 12, `h` itself from 1 to 11 and
`h - 12` from 13 to 23; the marker is "AM" from 0 to 11 and "PM" from 12
to 23. -/
theorem C8_displayHours (h : Nat) (hh : h ≤ 23) :
    (h = 0 ∨ h = 12 → displayHours h = 12) ∧
    (1 ≤ h ∧ h ≤ 11 → displayHours h = h) ∧
    (13 ≤ h ∧ h ≤ 23 → displayHours h = h - 12) ∧
    (h ≤ 11 → ampm h = "AM") ∧
    (12 ≤ h → ampm h = "PM") := by
  interval_cases h <;> decide

/-- At 23 hours the display reads 11 with the marker "PM". -/
theorem C8_displayHours_witness : displayHours 23 = 11 ∧ ampm 23 = "PM" := by
  obtain ⟨_, _, h3, _, h5⟩ := C8_displayHours 23 (by decide)
  exact ⟨h3 (by decide), h5 (by decide)⟩

/-! ## The category colours: lemmas -/

/-- A registered category resolves to its own pair; a name that is neither
registered nor inherited from `Object.prototype`, and an absent category,
resolve to the pair of "Personal". -/
theorem cardColours_plain (category : Option String) :
    (∀ name value, category = some name → categories.lookup name = some value →
      cardColours category = (some value.color, some value.borderColor)) ∧
    (∀ name, category = some name → categories.lookup name = none →
      name ∉ objectPrototypeNames →
      cardColours category = (some "#e3f2fd", some "#1976d2")) ∧
    (category = none → cardColours category = (some "#e3f2fd", some "#1976d2")) := by
  refine ⟨?_, ?_, ?_⟩
  · intro name value hc hl
    subst hc
    simp [cardColours, categoryStyle, categoriesGet, hl, Property.color, Property.borderColor]
  · intro name hc hl hn
    subst hc
    have hg : categoriesGet name = Property.undefined := by
      simp [categoriesGet, hl, hn]
    have hs : categoryStyle (some name) =
        Property.style { color := "#e3f2fd", borderColor := "#1976d2" } := by
      simp only [categoryStyle, Option.getD_some, hg]
      decide
    simp [cardColours, hs, Property.color, Property.borderColor]
  · intro hc
    subst hc
    decide

/-- Claim C9 at an inherited name. For the category "constructor" the read
`categories[note.category]` finds the function inherited from
`Object.prototype`, which is truthy, so the fallback to "Personal" is not
taken and both colours read `undefined`. -/
theorem C9_inherited_name_has_no_colours :
    categoryStyle (some "constructor") = Property.inherited ∧
    cardColours (some "constructor") = (none, none) ∧
    cardColours (some "constructor") ≠ (some "#e3f2fd", some "#1976d2") ∧
    cardColours (some "Foo") = (some "#e3f2fd", some "#1976d2") ∧
    cardColours (some "Work") = (some "#f3e5f5", some "#7b1fa2") := by
  decide

/-! ## Local storage: lemmas -/

theorem mapM_ok_of_forall {α β ε : Type} (f : α → Except ε β) (g : α → β) (l : List α)
    (h : ∀ x ∈ l, f x = Except.ok (g x)) : l.mapM f = Except.ok (l.map g) := by
  induction l with
  | nil => rfl
  | cons a rest ih =>
    rw [List.mapM_cons, h a (List.mem_cons_self _ _),
      ih (fun x hx => h x (List.mem_cons_of_mem _ hx))]
    rfl

theorem mapM_raises_of_mem {α β ε : Type} (f : α → Except ε β) (l : List α) (a : α)
    (ha : a ∈ l) (hf : ∀ r, f a ≠ Except.ok r) : ∀ r, l.mapM f ≠ Except.ok r := by
  induction l with
  | nil => cases ha
  | cons b rest ih =>
    intro r
    rw [List.mapM_cons]
    cases hb : f b with
    | error e => simp [bind, Except.bind]
    | ok y =>
      have hab : a ∈ rest := by
        rcases List.mem_cons.mp ha with rfl | hmem
        · exact absurd hb (hf y)
        · exact hmem
      cases hrest : rest.mapM f with
      | error e => simp [bind, Except.bind]
      | ok ys => exact absurd hrest (ih hab ys)

theorem mapM_ok_of_forall_ok {α β ε : Type} (f : α → Except ε β) (l : List α)
    (h : ∀ x ∈ l, ∃ y, f x = Except.ok y) : ∃ ys, l.mapM f = Except.ok ys := by
  induction l with
  | nil => exact ⟨[], rfl⟩
  | cons a rest ih =>
    obtain ⟨y, hy⟩ := h a (List.mem_cons_self _ _)
    obtain ⟨ys, hys⟩ := ih (fun x hx => h x (List.mem_cons_of_mem _ hx))
    exact ⟨y :: ys, by rw [List.mapM_cons, hy, hys]; rfl⟩

theorem getProp_of_not_nullish (note : JSValue) (key : String) (h : note.isNullish = false) :
    note.getProp key = Except.ok (note.field key) := by
  cases note <;> simp_all [JSValue.getProp, JSValue.field, JSValue.isNullish]

theorem getProp_of_nullish (note : JSValue) (key : String) (h : note.isNullish = true) :
    note.getProp key = Except.error JSError.typeError := by
  cases note <;> simp_all [JSValue.getProp, JSValue.isNullish]

/-- The constructor `new Date` raises exactly on an array or an object that
does not convert to a primitive. -/
theorem newDate_raises_iff (host : Host) (value : JSValue) :
    (∀ r, newDate host value ≠ Except.ok r) ↔ value.toPrimitiveRaises = true := by
  cases value with
  | array items =>
    by_cases h : (JSValue.array items).toPrimitiveRaises = true <;> simp [newDate, h]
  | object props =>
    by_cases h : (JSValue.object props).toPrimitiveRaises = true <;> simp [newDate, h]
  | _ => simp [newDate, JSValue.toPrimitiveRaises]

theorem newDate_of_not_raises (host : Host) (value : JSValue)
    (h : value.toPrimitiveRaises = false) : ∃ time, newDate host value = Except.ok time := by
  cases hn : newDate host value with
  | ok time => exact ⟨time, rfl⟩
  | error e =>
    have := (newDate_raises_iff host value).mp (by intro r hr; rw [hn] at hr; cases hr)
    rw [h] at this
    cases this

theorem newDate_of_raises (host : Host) (value : JSValue)
    (h : value.toPrimitiveRaises = true) : newDate host value = Except.error JSError.typeError := by
  cases value <;> simp_all [newDate, JSValue.toPrimitiveRaises]

/-- The callback on a value that is not `null`, when both dates are built. -/
theorem reviveNote_of_dates (host : Host) (note : JSValue) (created : Option Int)
    (updated : JSValue) (h : note.isNullish = false)
    (hc : newDate host (note.field "createdAt") = Except.ok created)
    (hu : (if (note.field "updatedAt").truthy
            then (newDate host (note.field "updatedAt")).map JSValue.date
            else Except.ok JSValue.null) = Except.ok updated) :
    reviveNote host note =
      Except.ok (JSValue.object
        (setProp
          (setProp
            (setProp note.spread "createdAt" (JSValue.date created))
            "updatedAt" updated)
          "category"
          (if (note.field "category").truthy then note.field "category"
            else JSValue.string "Personal"))) := by
  by_cases ht : (note.field "updatedAt").truthy = true
  · rw [if_pos ht] at hu
    simp [reviveNote, getProp_of_not_nullish note _ h, hc, ht, hu, bind, Except.bind, pure,
      Except.pure]
  · rw [if_neg ht] at hu
    cases hu
    simp [reviveNote, getProp_of_not_nullish note _ h, hc, ht, bind, Except.bind, pure,
      Except.pure]

/-- The callback raises exactly on `null` and on a value whose `createdAt` or
`updatedAt` does not convert to a primitive. -/
theorem reviveNote_raises_iff (host : Host) (note : JSValue) :
    (∀ r, reviveNote host note ≠ Except.ok r) ↔ reviveRaises note = true := by
  cases hnull : note.isNullish with
  | true =>
    simp [reviveRaises, hnull, reviveNote, getProp_of_nullish note _ hnull, bind, Except.bind]
  | false =>
    cases hc : (note.field "createdAt").toPrimitiveRaises with
    | true =>
      simp [reviveRaises, hnull, hc, reviveNote, getProp_of_not_nullish note _ hnull,
        newDate_of_raises host _ hc, bind, Except.bind]
    | false =>
      obtain ⟨created, hcreated⟩ := newDate_of_not_raises host _ hc
      cases hu : (note.field "updatedAt").toPrimitiveRaises with
      | true =>
        have htruthy : (note.field "updatedAt").truthy = true := by
          cases hf : note.field "updatedAt" <;>
            simp_all [JSValue.toPrimitiveRaises, JSValue.truthy]
        simp [reviveRaises, hnull, hc, hu, reviveNote, getProp_of_not_nullish note _ hnull,
          hcreated, htruthy, newDate_of_raises host _ hu, bind, Except.bind, Except.map]
      | false =>
        obtain ⟨updatedTime, hupdated⟩ := newDate_of_not_raises host _ hu
        have hok : ∃ updated, (if (note.field "updatedAt").truthy
            then (newDate host (note.field "updatedAt")).map JSValue.date
            else Except.ok JSValue.null) = Except.ok updated := by
          by_cases ht : (note.field "updatedAt").truthy = true
          · exact ⟨JSValue.date updatedTime, by simp [ht, hupdated, Except.map]⟩
          · exact ⟨JSValue.null, by simp [ht]⟩
        obtain ⟨updated, hupd⟩ := hok
        rw [reviveNote_of_dates host note created updated hnull hcreated hupd]
        simp [reviveRaises, hnull, hc, hu]

/-- The call `parsedNotes.map(...)` raises exactly when the parsed value is not
an array, or is an array with an element on which the callback raises; every
other array is mapped, whatever its elements are. -/
theorem mapNotes_raises_iff (host : Host) (parsed : JSValue) :
    (∀ r, mapNotes host parsed ≠ Except.ok r) ↔ mapRaises parsed = true := by
  cases parsed with
  | array items =>
    simp only [mapNotes, mapRaises, List.any_eq_true]
    constructor
    · intro h
      by_contra hno
      obtain ⟨ys, hys⟩ := mapM_ok_of_forall_ok (reviveNote host) items (by
        intro x hx
        by_contra hnone
        exact hno ⟨x, hx, (reviveNote_raises_iff host x).mp (fun r hr => hnone ⟨r, hr⟩)⟩)
      exact h ys hys
    · rintro ⟨x, hx, hraise⟩
      exact mapM_raises_of_mem (reviveNote host) items x hx
        ((reviveNote_raises_iff host x).mpr hraise)
  | _ => simp [mapNotes, mapRaises]

theorem lookup_setProp (props : List (String × JSValue)) (key : String) (value : JSValue) :
    (setProp props key value).lookup key = some value := by
  induction props with
  | nil => simp [setProp, List.lookup]
  | cons p rest ih =>
    obtain ⟨k, v⟩ := p
    by_cases hk : k = key
    · simp [setProp, hk, List.lookup]
    · have hne : (key == k) = false := by
        simp only [beq_eq_false_iff_ne, ne_eq]
        exact fun h => hk h.symm
      simp [setProp, hk, List.lookup, hne, ih]

theorem field_object_setProp (props : List (String × JSValue)) (key : String)
    (value : JSValue) : (JSValue.object (setProp props key value)).field key = value := by
  simp only [JSValue.field, lookup_setProp, Option.getD_some]

/-- Every note that the load step builds has a truthy category: a falsy one is
replaced by "Personal" (line 35). -/
theorem reviveNote_category_truthy (host : Host) (note revived : JSValue)
    (h : reviveNote host note = Except.ok revived) :
    (revived.field "category").truthy = true := by
  cases hnull : note.isNullish with
  | true =>
    simp [reviveNote, getProp_of_nullish note _ hnull, bind, Except.bind] at h
  | false =>
    cases hc : newDate host (note.field "createdAt") with
    | error e =>
      simp [reviveNote, getProp_of_not_nullish note _ hnull, hc, bind, Except.bind] at h
    | ok created =>
      cases hu : (if (note.field "updatedAt").truthy
            then (newDate host (note.field "updatedAt")).map JSValue.date
            else Except.ok JSValue.null) with
      | error e =>
        by_cases ht : (note.field "updatedAt").truthy = true
        · rw [if_pos ht] at hu
          simp [reviveNote, getProp_of_not_nullish note _ hnull, hc, ht, hu, bind,
            Except.bind] at h
        · rw [if_neg ht] at hu
          cases hu
      | ok updated =>
        rw [reviveNote_of_dates host note created updated hnull hc hu] at h
        cases h
        rw [field_object_setProp]
        by_cases ht : (note.field "category").truthy = true
        · rw [if_pos ht]
          exact ht
        · rw [if_neg ht]
          rfl

/-- Claim C6, as stated, fails for an array whose elements are not notes. The
stored text "[\x7b\x7d]" parses to an array that holds one empty object,
which is not an array of stored notes; the map does not raise on it, and the
load ends with a collection of one object instead of the empty collection. -/
theorem C6_array_of_non_notes_is_loaded :
    malformedHost.jsonParse "[\x7b\x7d]" = some (JSValue.array [JSValue.object []]) ∧
    isNoteArray (JSValue.array [JSValue.object []]) = false ∧
    loadEffect malformedHost (some "[\x7b\x7d]") [] =
      [JSValue.object
        [("createdAt", JSValue.date none),
         ("updatedAt", JSValue.null),
         ("category", JSValue.string "Personal")]] ∧
    loadEffect malformedHost (some "[\x7b\x7d]") [] ≠ [] := by
  have hp : malformedHost.jsonParse "[\x7b\x7d]" = some (JSValue.array [JSValue.object []]) := by
    simp [malformedHost, fragmentHost, List.lookup]
  have hrev : reviveNote malformedHost (JSValue.object []) =
      Except.ok (JSValue.object
        [("createdAt", JSValue.date none),
         ("updatedAt", JSValue.null),
         ("category", JSValue.string "Personal")]) := by
    simp [reviveNote, JSValue.getProp, newDate, JSValue.truthy, JSValue.spread, setProp,
      List.lookup, bind, Except.bind, pure, Except.pure]
  have hload : loadEffect malformedHost (some "[\x7b\x7d]") [] =
      [JSValue.object
        [("createdAt", JSValue.date none),
         ("updatedAt", JSValue.null),
         ("category", JSValue.string "Personal")]] := by
    have hmap : [JSValue.object []].mapM (reviveNote malformedHost) =
        Except.ok [JSValue.object
          [("createdAt", JSValue.date none),
           ("updatedAt", JSValue.null),
           ("category", JSValue.string "Personal")]] := by
      rw [List.mapM_cons, hrev]
      rfl
    have hne : ¬ ("[\x7b\x7d]" : String) = "" := by decide
    simp only [loadEffect, if_neg hne, tryLoad, hp, mapNotes, hmap]
  refine ⟨hp, by decide, hload, ?_⟩
  rw [hload]
  simp

/-- Claim C6, amended. For every stored text that `JSON.parse` rejects, or whose
parsed value is not an array, or is an array with an element that is `null`
or whose `createdAt` or `updatedAt` does not convert to a primitive, the
load step does not fail: it completes with the empty collection (the
collection of the mount stays empty, and for a non-empty text any collection
is reset). -/
theorem C6_load_resets_when_map_raises (host : Host) (text : String)
    (hBad : host.jsonParse text = none ∨
      ∃ parsed, host.jsonParse text = some parsed ∧ mapRaises parsed = true) :
    loadEffect host (some text) [] = [] ∧
    (text ≠ "" → ∀ notes, loadEffect host (some text) notes = []) := by
  have key : ∀ notes, text ≠ "" → loadEffect host (some text) notes = [] := by
    intro notes hne
    rcases hBad with hp | ⟨parsed, hp, hraise⟩
    · simp [loadEffect, hne, tryLoad, hp]
    · simp only [loadEffect, if_neg hne, tryLoad, hp]
      cases hm : mapNotes host parsed with
      | error e => rfl
      | ok r => exact absurd hm ((mapNotes_raises_iff host parsed).mpr hraise r)
  refine ⟨?_, fun hne notes => key notes hne⟩
  by_cases hne : text = ""
  · simp [loadEffect, hne]
  · exact key [] hne

/-- The stored text "[null]" parses to an array with a `null` element and the
load gives the empty collection. -/
theorem C6_load_resets_witness :
    malformedHost.jsonParse "[null]" = some (JSValue.array [JSValue.null]) ∧
    mapRaises (JSValue.array [JSValue.null]) = true ∧
    loadEffect malformedHost (some "[null]") [] = [] := by
  have hp : malformedHost.jsonParse "[null]" = some (JSValue.array [JSValue.null]) := by
    simp [malformedHost, fragmentHost, List.lookup]
  exact ⟨hp, by decide,
    (C6_load_resets_when_map_raises malformedHost "[null]" (Or.inr ⟨_, hp, by decide⟩)).1⟩

/-! ## The categories that the store holds -/

/-- One event of the interface keeps every category among the options of the
selects: the draft, the notes of the collection and the edit buffer. -/
theorem step_category_names (s : State) (a : Action) (hfire : fires s a)
    (hd : s.noteCategory ∈ categoryNames)
    (hn : ∀ note ∈ s.notes, note.category ∈ categoryNames)
    (hb : ∀ b, s.selectedNote = some b → b.category ∈ categoryNames) :
    (step s a).noteCategory ∈ categoryNames ∧
    (∀ note ∈ (step s a).notes, note.category ∈ categoryNames) ∧
    (∀ b, (step s a).selectedNote = some b → b.category ∈ categoryNames) := by
  cases a with
  | setNoteTitle value => exact ⟨hd, hn, hb⟩
  | handleContentChange value => exact ⟨hd, hn, hb⟩
  | setNoteCategory value => exact ⟨hfire, hn, hb⟩
  | addNote now today =>
    show (addNote s now today).noteCategory ∈ categoryNames ∧
      (∀ note ∈ (addNote s now today).notes, note.category ∈ categoryNames) ∧
      (∀ b, (addNote s now today).selectedNote = some b → b.category ∈ categoryNames)
    by_cases hc : trim s.noteContent = ""
    · rw [addNote_of_blank s now today hc]; exact ⟨hd, hn, hb⟩
    · rw [addNote_of_nonblank s now today hc]
      refine ⟨show "Personal" ∈ categoryNames by decide, ?_, hb⟩
      intro note hmem
      simp only [List.mem_append, List.mem_singleton] at hmem
      rcases hmem with hmem | rfl
      · exact hn note hmem
      · exact hd
  | deleteNote confirmDelete noteId =>
    show (deleteNote s confirmDelete noteId).noteCategory ∈ categoryNames ∧
      (∀ note ∈ (deleteNote s confirmDelete noteId).notes, note.category ∈ categoryNames) ∧
      (∀ b, (deleteNote s confirmDelete noteId).selectedNote = some b →
        b.category ∈ categoryNames)
    cases confirmDelete with
    | false => exact ⟨hd, hn, hb⟩
    | true =>
      refine ⟨hd, ?_, ?_⟩
      · intro note hmem
        simp only [deleteNote, if_true, List.mem_filter] at hmem
        exact hn note hmem.1
      · intro b hsel
        cases hopen : s.selectedNote with
        | none => simp [deleteNote, hopen] at hsel
        | some sel =>
          by_cases hid : sel.id = noteId
          · simp [deleteNote, hopen, hid] at hsel
          · simp [deleteNote, hopen, hid] at hsel
            rw [← hsel]
            exact hb sel hopen
  | openNote note =>
    refine ⟨hd, hn, ?_⟩
    intro b hsel
    simp only [step, openNote, Option.some.injEq] at hsel
    rw [← hsel]
    exact hn note hfire
  | closeModal =>
    refine ⟨hd, hn, ?_⟩
    intro b hsel
    simp [step, closeModal] at hsel
  | handleModalChange field value =>
    show (handleModalChange s field value).noteCategory ∈ categoryNames ∧
      (∀ note ∈ (handleModalChange s field value).notes, note.category ∈ categoryNames) ∧
      (∀ b, (handleModalChange s field value).selectedNote = some b →
        b.category ∈ categoryNames)
    cases hopen : s.selectedNote with
    | none =>
      have : handleModalChange s field value = s := by simp [handleModalChange, hopen]
      rw [this]; exact ⟨hd, hn, hb⟩
    | some prev =>
      have hprev := hb prev hopen
      cases field with
      | title =>
        have e : handleModalChange s Field.title value =
            { s with selectedNote := some { prev with title := some value } } := by
          simp [handleModalChange, hopen]
        rw [e]
        refine ⟨hd, hn, ?_⟩
        intro b hsel
        cases hsel
        exact hprev
      | content =>
        have e : handleModalChange s Field.content value =
            { s with selectedNote := some { prev with content := value } } := by
          simp [handleModalChange, hopen]
        rw [e]
        refine ⟨hd, hn, ?_⟩
        intro b hsel
        cases hsel
        exact hprev
      | category =>
        have e : handleModalChange s Field.category value =
            { s with selectedNote := some { prev with category := value } } := by
          simp [handleModalChange, hopen]
        rw [e]
        refine ⟨hd, hn, ?_⟩
        intro b hsel
        cases hsel
        exact hfire
  | saveNoteChanges today =>
    show (saveNoteChanges s today).noteCategory ∈ categoryNames ∧
      (∀ note ∈ (saveNoteChanges s today).notes, note.category ∈ categoryNames) ∧
      (∀ b, (saveNoteChanges s today).selectedNote = some b → b.category ∈ categoryNames)
    cases hopen : s.selectedNote with
    | none => rw [saveNoteChanges_of_closed s today hopen]; exact ⟨hd, hn, hb⟩
    | some sel =>
      by_cases hc : trim sel.content = ""
      · rw [saveNoteChanges_of_blank s sel today hopen hc]; exact ⟨hd, hn, hb⟩
      · rw [saveNoteChanges_of_nonblank s sel today hopen hc]
        refine ⟨hd, ?_, ?_⟩
        · intro note hmem
          simp only [List.mem_map] at hmem
          obtain ⟨old, hold, rfl⟩ := hmem
          by_cases hid : old.id = sel.id
          · simp only [hid, if_true]; exact hb sel hopen
          · simp only [hid, if_false]; exact hn old hold
        · intro b hsel
          cases hsel

theorem run_category_names (actions : List Action) (s : State) (hfire : firesAll s actions)
    (hd : s.noteCategory ∈ categoryNames)
    (hn : ∀ note ∈ s.notes, note.category ∈ categoryNames)
    (hb : ∀ b, s.selectedNote = some b → b.category ∈ categoryNames) :
    ∀ note ∈ (run s actions).notes, note.category ∈ categoryNames := by
  induction actions generalizing s with
  | nil => exact hn
  | cons a rest ih =>
    obtain ⟨h1, h2, h3⟩ := step_category_names s a hfire.1 hd hn hb
    exact ih (step s a) hfire.2 h1 h2 h3

/-- Every note that the interface puts into the collection, starting from the
empty collection, has one of the seven categories, so its category is not
the empty string. -/
theorem run_category_nonempty (actions : List Action) (hfire : firesAll initialState actions) :
    ∀ note ∈ (run initialState actions).notes, note.category ≠ "" := by
  intro note hmem hempty
  have h := run_category_names actions initialState hfire (by decide)
    (by intro n hn; cases hn) (by intro b hb; cases hb) note hmem
  rw [hempty] at h
  exact absurd h (by decide)

/-! ## The round trip through the storage slot -/

/-- The tree that `JSON.stringify` writes for a note of the store is the tree
of the schema. -/
theorem serialize_toJS (host : Host) (n : Note) :
    serialize host (Note.toJS n) = some (Note.toJSON host n) := by
  cases ht : n.title <;> cases hu : n.updatedAt <;>
    simp [Note.toJS, Note.toJSON, serialize, serializeProps, jsonOptString, ht, hu]

theorem serializeItems_toJS (host : Host) (notes : List Note) :
    serializeItems host (notes.map Note.toJS) = notes.map (Note.toJSON host) := by
  induction notes with
  | nil => simp [serializeItems]
  | cons n rest ih => simp [serializeItems, serialize_toJS, ih]

/-- The callback of the load step rebuilds a note of the store from its tree,
when the category is not empty and the host reads the times back. -/
theorem reviveNote_toJSON (host : Host) (n : Note) (hcat : n.category ≠ "")
    (htimes : ∀ t ∈ n.times, ReadsBackTime host t) :
    reviveNote host (Note.toJSON host n) = Except.ok (Note.toJS n) := by
  have hc := htimes n.createdAt (by simp [Note.times])
  cases hupd : n.updatedAt with
  | none =>
    simp [reviveNote, Note.toJSON, Note.toJS, JSValue.getProp, JSValue.spread, setProp,
      List.lookup, JSValue.truthy, newDate, bind, Except.bind, pure, Except.pure, hupd,
      hc.2, hcat]
  | some t =>
    have hu := htimes t (by simp [Note.times, hupd])
    simp [reviveNote, Note.toJSON, Note.toJS, JSValue.getProp, JSValue.spread, setProp,
      List.lookup, JSValue.truthy, newDate, bind, Except.bind, pure, Except.pure, hupd,
      hc.2, hcat, hu.1, hu.2, Except.map]

/-- Reading back what the persist effect wrote for a collection of notes of the
store. -/
theorem loadEffect_stringifyNotes (host : Host) (notes : List Note) (current : List JSValue)
    (hTree : ReadsBackTree host (JSValue.array (notes.map (Note.toJSON host))))
    (hTimes : ∀ n ∈ notes, ∀ t ∈ n.times, ReadsBackTime host t)
    (hCat : ∀ n ∈ notes, n.category ≠ "") :
    loadEffect host (some (stringifyNotes host (notes.map Note.toJS))) current =
      notes.map Note.toJS := by
  have hmap : (notes.map (Note.toJSON host)).mapM (reviveNote host) =
      Except.ok ((notes.map (Note.toJSON host)).map
        (fun v => match reviveNote host v with
          | Except.ok r => r
          | Except.error _ => JSValue.undefined)) := by
    apply mapM_ok_of_forall
    intro v hv
    obtain ⟨n, hn, rfl⟩ := List.mem_map.mp hv
    rw [reviveNote_toJSON host n (hCat n hn) (hTimes n hn)]
  simp only [stringifyNotes, serializeItems_toJS, loadEffect, if_neg hTree.1, tryLoad, hTree.2,
    mapNotes, hmap, List.map_map]
  apply List.map_congr_left
  intro n hn
  simp only [Function.comp]
  rw [reviveNote_toJSON host n (hCat n hn) (hTimes n hn)]

theorem soonHost_load : loadEffect soonHost (some soonText) [] = [soonNote] := by
  have hp : soonHost.jsonParse soonText = some soonTree := by
    simp [soonHost, fragmentHost, List.lookup]
  have hrev : reviveNote soonHost
      (JSValue.object
        [("id", JSValue.number 1),
         ("title", JSValue.null),
         ("content", JSValue.string "x"),
         ("category", JSValue.string "Work"),
         ("createdAt", JSValue.string "soon"),
         ("updatedAt", JSValue.null)]) = Except.ok soonNote := by
    have hd : soonHost.dateParse "soon" = none := by
      simp [soonHost, fragmentHost, List.lookup]
    simp [reviveNote, JSValue.getProp, newDate, JSValue.truthy, JSValue.spread, setProp,
      List.lookup, bind, Except.bind, pure, Except.pure, soonNote, hd]
  have hne : ¬ soonText = "" := by decide
  simp only [loadEffect, if_neg hne, tryLoad, hp, soonTree, mapNotes]
  rw [List.mapM_cons, hrev]
  rfl

theorem soonHost_stringify : stringifyNotes soonHost [soonNote] = soonWrittenText := rfl

theorem soonHost_serialize : serializeItems soonHost [soonNote] =
    [JSValue.object
      [("id", JSValue.number 1),
       ("title", JSValue.null),
       ("content", JSValue.string "x"),
       ("category", JSValue.string "Work"),
       ("createdAt", JSValue.null),
       ("updatedAt", JSValue.null)]] := by
  simp [soonNote, serializeItems, serialize, serializeProps]

theorem soonHost_reload :
    loadEffect soonHost (persistEffect soonHost false [soonNote] none) [] = [epochNote] := by
  have hp : soonHost.jsonParse soonWrittenText = some soonWrittenTree := by
    have hne : (soonWrittenText == soonText) = false := by decide
    simp [soonHost, fragmentHost, List.lookup, hne]
  have hrev : reviveNote soonHost
      (JSValue.object
        [("id", JSValue.number 1),
         ("title", JSValue.null),
         ("content", JSValue.string "x"),
         ("category", JSValue.string "Work"),
         ("createdAt", JSValue.null),
         ("updatedAt", JSValue.null)]) = Except.ok epochNote := by
    simp [reviveNote, JSValue.getProp, newDate, JSValue.truthy, JSValue.spread, setProp,
      List.lookup, bind, Except.bind, pure, Except.pure, epochNote]
  have hne : ¬ soonWrittenText = "" := by decide
  simp only [persistEffect, Bool.not_false, if_true, soonHost_stringify, loadEffect, if_neg hne,
    tryLoad, hp, soonWrittenTree, mapNotes]
  rw [List.mapM_cons, hrev]
  rfl

/-- Claim C5, as stated, fails for a note whose `createdAt` is an invalid date.
The load step builds such a note from a stored `createdAt` that is not the
text of a date. The persist step writes the invalid date as `null`, the
host reads the written tree back without loss, and the load step then
rebuilds `createdAt` as the epoch: the note read back differs from the
original in `createdAt`. -/
theorem C5_invalid_date_not_restored :
    loadEffect soonHost (some soonText) [] = [soonNote] ∧
    soonNote.field "createdAt" = JSValue.date none ∧
    JSValue.array (serializeItems soonHost [soonNote]) = soonWrittenTree ∧
    ReadsBackTree soonHost soonWrittenTree ∧
    loadEffect soonHost (persistEffect soonHost false [soonNote] none) [] = [epochNote] ∧
    epochNote.field "createdAt" = JSValue.date (some 0) ∧
    loadEffect soonHost (persistEffect soonHost false [soonNote] none) [] ≠ [soonNote] := by
  refine ⟨soonHost_load, by simp [soonNote, JSValue.field, List.lookup], ?_, ?_, soonHost_reload,
    by simp [epochNote, JSValue.field, List.lookup], ?_⟩
  · rw [soonHost_serialize]; rfl
  · have hw : soonHost.jsonText soonWrittenTree = soonWrittenText := by rfl
    have hne : (soonWrittenText == soonText) = false := by decide
    refine ⟨by rw [hw]; decide, ?_⟩
    rw [hw]
    simp [soonHost, fragmentHost, List.lookup, hne]
  · rw [soonHost_reload]
    simp [epochNote, soonNote]

/-- Claim C5, amended. For every collection of notes in which every `createdAt`
and every `updatedAt` that is not null is a valid date, the categories being
non-empty strings as in every collection that the component holds (the
interface stores one of the seven names, `run_category_nonempty`, and the
load step replaces a falsy category, `reviveNote_category_truthy`): the text
that the persist effect writes, loaded by the load effect, gives the same
notes in the same order, each equal to the original in id, title, content,
category, `createdAt` and `updatedAt`. The textual encoding is the host's:
the host is taken to read back the tree of the collection from its text and
each time from its textual form. -/
theorem C5_roundtrip (host : Host) (notes : List Note) (storage : Option String)
    (current : List JSValue)
    (hTree : ReadsBackTree host (JSValue.array (notes.map (Note.toJSON host))))
    (hTimes : ∀ n ∈ notes, ∀ t ∈ n.times, ReadsBackTime host t)
    (hCat : ∀ n ∈ notes, n.category ≠ "") :
    loadEffect host (persistEffect host false (notes.map Note.toJS) storage) current =
      notes.map Note.toJS := by
  simp only [persistEffect, Bool.not_false, if_true]
  exact loadEffect_stringifyNotes host notes current hTree hTimes hCat

theorem juneHost_readsBackTree :
    ReadsBackTree juneHost (JSValue.array ([juneNote].map (Note.toJSON juneHost))) := by
  have ht : JSValue.array ([juneNote].map (Note.toJSON juneHost)) = juneTree := by
    simp [juneTree, Note.toJSON, juneNote, jsonOptString, juneHost, fragmentHost, List.lookup]
  have hw : juneHost.jsonText juneTree = juneText := by rfl
  rw [ht]
  refine ⟨by rw [hw]; decide, ?_⟩
  rw [hw]
  simp [juneHost, fragmentHost, List.lookup]

theorem juneHost_readsBackTime : ∀ n ∈ [juneNote], ∀ t ∈ n.times, ReadsBackTime juneHost t := by
  intro n hn t ht
  rw [List.mem_singleton] at hn
  subst hn
  have : t = 1717423500000 := by
    simp [Note.times, juneNote] at ht
    exact ht
  subst this
  refine ⟨by decide, ?_⟩
  simp [juneHost, fragmentHost, List.lookup]

/-- The collection holding `juneNote` is restored by the round trip. -/
theorem C5_roundtrip_witness :
    ReadsBackTree juneHost (JSValue.array ([juneNote].map (Note.toJSON juneHost))) ∧
    (∀ n ∈ [juneNote], ∀ t ∈ n.times, ReadsBackTime juneHost t) ∧
    (∀ n ∈ [juneNote], n.category ≠ "") ∧
    loadEffect juneHost (persistEffect juneHost false [Note.toJS juneNote] none) [] =
      [Note.toJS juneNote] :=
  ⟨juneHost_readsBackTree, juneHost_readsBackTime, by decide,
    C5_roundtrip juneHost [juneNote] none [] juneHost_readsBackTree juneHost_readsBackTime
      (by decide)⟩

end QuickNotes
